import Mathlib

/-!
Shallow embedding of `findmegoogleip.py` (repository FindMeGoogleIP).

Strings are modelled as `List Char`.  Python operations that can raise are
modelled with `Option` (`none` = the operation raises).  Python `float(...)`
is taken as an arbitrary parameter, since no claim depends on the numeric
grammar it accepts; measured values are rationals.
-/

/-- Python `s.startswith(pre)` on character lists. -/
def startswith : List Char → List Char → Bool
  | [], _ => true
  | _ :: _, [] => false
  | p :: ps, c :: cs => p == c && startswith ps cs

/-- Python substring containment `pat in s` on character lists. -/
def containsSub (pat : List Char) : List Char → Bool
  | [] => startswith pat []
  | c :: cs => startswith pat (c :: cs) || containsSub pat cs

/-- Python `s.split(sep)` for a non-empty separator: split on every
non-overlapping occurrence, scanning left to right; `''.split(sep) = ['']`.
The program only ever calls `split` with non-empty literal separators
(`'\n'`, `', '`, `' '`, `' = '`, `'/'`); for an empty separator Python
raises `ValueError`, a case this definition never receives. -/
def pySplit (sep : List Char) : List Char → List (List Char)
  | [] => [[]]
  | c :: cs =>
    if sep ≠ [] ∧ startswith sep (c :: cs) = true then
      [] :: pySplit sep ((c :: cs).drop sep.length)
    else
      match pySplit sep cs with
      | [] => [[c]]
      | l :: ls => (c :: l) :: ls
termination_by s => s.length
decreasing_by
  · simp only [List.length_drop, List.length_cons]
    rename_i h
    have hs : 0 < sep.length := List.length_pos.mpr h.1
    omega
  · simp only [List.length_cons]
    omega

/-- Reference version of `split('\n')` by structural recursion (single-character
separators cannot overlap, so the general splitter agrees with it). -/
def splitNl : List Char → List (List Char)
  | [] => [[]]
  | c :: cs =>
    if c == '\n' then [] :: splitNl cs
    else
      match splitNl cs with
      | [] => [[c]]
      | l :: ls => (c :: l) :: ls

/-- Python `s.replace(pat, rep)` for a non-empty pattern: replace every
non-overlapping occurrence, scanning left to right.  (The program only calls
`replace` with the non-empty literals `'Address: '` and `'%'`.) -/
def replaceAll (pat rep : List Char) : List Char → List Char
  | [] => []
  | c :: cs =>
    if pat ≠ [] ∧ startswith pat (c :: cs) = true then
      rep ++ replaceAll pat rep ((c :: cs).drop pat.length)
    else
      c :: replaceAll pat rep cs
termination_by s => s.length
decreasing_by
  · simp only [List.length_drop, List.length_cons]
    rename_i h
    have hs : 0 < pat.length := List.length_pos.mpr h.1
    omega
  · simp only [List.length_cons]
    omega

/-- Python negative indexing `l[-k]` (for `k ≥ 1`): `none` models the
`IndexError` raised when `k` exceeds the length. -/
def pyIdxNeg (l : List α) (k : Nat) : Option α :=
  if 1 ≤ k ∧ k ≤ l.length then l[l.length - k]? else none

-- Separator and tag constants used by the program.
def nlSep : List Char := ("\n").data
def commaSpSep : List Char := (", ").data
def spSep : List Char := (" ").data
def eqSep : List Char := (" = ").data
def slashSep : List Char := ("/").data
def pctTag : List Char := ("%").data
def addressTag : List Char := ("Address: ").data
def googleSub : List Char := ("google").data
def pre74 : List Char := ("74.").data
def pre173 : List Char := ("173.").data

/-! Program-level definitions, one per source function. -/

/-- `FindMeIP.run_threads` start loop.  The value of `threading.active_count()`
observed at iteration `i` is an oracle `active_count i` (it depends on real-time
completion of previously started threads).  The loop starts thread `i` only when
the observed count does not exceed `limit`; otherwise it sleeps once and
`continue`s to the next thread, never returning to thread `i`.  This returns
the indices of the threads that are actually started. -/
def run_threads_started (active_count : Nat → Nat) (limit : Nat) (n : Nat) : List Nat :=
  (List.range n).filter (fun i => decide (active_count i ≤ limit))

/-- `FindMeIP.run_threads` join loop: `thread.join()` on a thread that was
never started raises `RuntimeError` (modelled as `none`), so the call returns
normally only when every thread was started. -/
def run_threads_result (active_count : Nat → Nat) (limit : Nat) (n : Nat) : Option Unit :=
  if (List.range n).all (fun i => decide (active_count i ≤ limit)) then some () else none

/-- `NsLookup.parse_nslookup_result`.  In Python, `del lines[0]` removes the
line at original index 0 and the subsequent `del lines[1]` removes the line at
original index 2 of the shrunk list; the remaining lines are scanned in order
for the prefix `'Address: '`, which is then removed with `replace`.  `none`
models the `IndexError` raised when the transcript has fewer than three
lines. -/
def parse_nslookup_result (result : List Char) : Option (List (List Char)) :=
  match pySplit nlSep result with
  | _l0 :: l1 :: _l2 :: rest =>
      some (((l1 :: rest).filter (fun line => startswith addressTag line)).map
        (fun line => replaceAll addressTag [] line))
  | _ => none

/-- Exclusion test in `NsLookup.run`: an address is skipped when the queried
name contains `'google'` and the address starts with `'74.'` or `'173.'`. -/
def ns_excluded (name ip : List Char) : Bool :=
  containsSub googleSub name && (startswith pre74 ip || startswith pre173 ip)

/-- Python `set.add` on a set modelled as a duplicate-free list. -/
def pySetAdd (s : List (List Char)) (x : List Char) : List (List Char) :=
  if x ∈ s then s else s ++ [x]

/-- Merge loop of `NsLookup.run`: each parsed address is added to the shared
resolved-address set unless the exclusion test fires. -/
def ns_store_after_run (name : List Char) (ips : List (List Char))
    (store : List (List Char)) : List (List Char) :=
  ips.foldl (fun st ip => if ns_excluded name ip then st else pySetAdd st ip) store

/-- Per-address probe record produced by `Ping.parse_ping_result`
(`{'loss': float, 'time': float}`). -/
structure PingRec where
  loss : ℚ
  time : ℚ
deriving DecidableEq, Repr

/-- `Ping.parse_ping_result`, line by line:
`loss = result.split('\n')[-3].split(', ')[2].split(' ')[0].replace('%', '')`,
`trip_time = result.split('\n')[-2].split(' = ')[-1].split('/')[1]`,
`return {'loss': float(loss), 'time': float(trip_time)}`.
Every indexing step that can raise `IndexError` is guarded with `Option`;
`pyfloat` models Python `float(...)` (`none` = `ValueError`). -/
def parse_ping_result (pyfloat : List Char → Option ℚ) (result : List Char) :
    Option PingRec := do
  let lines := pySplit nlSep result
  let lossLine ← pyIdxNeg lines 3
  let seg2 ← (pySplit commaSpSep lossLine)[2]?
  let word0 ← (pySplit spSep seg2)[0]?
  let lossStr := replaceAll pctTag [] word0
  let lastLine ← pyIdxNeg lines 2
  let eqPart ← pyIdxNeg (pySplit eqSep lastLine) 1
  let timeStr ← (pySplit slashSep eqPart)[1]?
  let loss ← pyfloat lossStr
  let time ← pyfloat timeStr
  return { loss := loss, time := time }

/-- Outcome of the `subprocess.check_output(["ping", ...])` call in `Ping.run`. -/
inductive PingProcResult where
  | ok (out : List Char)
  | calledProcessError
deriving DecidableEq

/-- Python dict assignment `d[k] = v` on a dict modelled as an
insertion-ordered association list with distinct keys. -/
def pyDictSet (d : List (List Char × PingRec)) (k : List Char) (v : PingRec) :
    List (List Char × PingRec) :=
  if d.any (fun p => p.1 == k) then
    d.map (fun p => if p.1 == k then (k, v) else p)
  else
    d ++ [(k, v)]

/-- `Ping.run`: only `subprocess.CalledProcessError` is caught (the probe
process failing outright); it leaves the store unchanged.  When the process
succeeds, its output is parsed *after* `self.lock.acquire()`; an exception
raised by `parse_ping_result` (IndexError/ValueError on malformed output) is
not caught by any handler in the method and escapes `run` — modelled as
`none` (it also leaves the shared lock permanently held). -/
def ping_run (pyfloat : List Char → Option ℚ) (proc : PingProcResult)
    (server : List Char) (store : List (List Char × PingRec)) :
    Option (List (List Char × PingRec)) :=
  match proc with
  | .calledProcessError => some store
  | .ok out =>
    match parse_ping_result pyfloat out with
    | some r => some (pyDictSet store server r)
    | none => none

/-- Comparison key of `sorted(self.ip_with_time, key=lambda x: x[1])`. -/
def rtt_le (a b : List Char × ℚ) : Bool := decide (a.2 ≤ b.2)

/-- The list built by `FindMeIP.ping` before sorting: pairs `(k, v['time'])`
for the records with `v['loss'] == 0`, in dict insertion order. -/
def pre_sort_list (ping_results : List (List Char × PingRec)) : List (List Char × ℚ) :=
  (ping_results.filter (fun kv => decide (kv.2.loss = 0))).map (fun kv => (kv.1, kv.2.time))

/-- `FindMeIP.ping` final value of `self.ip_with_time`: the zero-loss pairs
sorted ascending by round-trip time with Python's stable `sorted`. -/
def ip_with_time (ping_results : List (List Char × PingRec)) : List (List Char × ℚ) :=
  (pre_sort_list ping_results).mergeSort rtt_le

/-- `FindMeIP.ping` final value of `self.available_ips`. -/
def available_ips (ping_results : List (List Char × PingRec)) : List (List Char) :=
  (ip_with_time ping_results).map Prod.fst

/-- `FindMeIP.check_service` aggregate effect: one `ServiceCheck` thread per
available address appends its address when its TLS handshake succeeds.
Threads append in completion order; this definition fixes launch order, and
the theorems about it quantify over an arbitrary permutation. -/
def check_service (available : List (List Char)) (handshake_ok : List Char → Bool) :
    List (List Char) :=
  available.filter handshake_ok

/-- Outcome of the TLS connect in `ServiceCheck.run`.  `connectionRefused`
stands for any exception other than the two named in the `except` clause
(`ssl.CertificateError`, `socket.timeout`) — e.g. `ConnectionRefusedError`,
`OSError`, or a non-certificate `ssl.SSLError`. -/
inductive NetOutcome where
  | handshakeOk
  | certificateError
  | socketTimeout
  | connectionRefused
deriving DecidableEq

/-- `ServiceCheck.run`: on success the address is appended to the shared list
under the lock; `ssl.CertificateError` and `socket.timeout` are caught and
leave the list unchanged; any other exception escapes the method uncaught
(modelled as `none`). -/
def serviceCheck_run (ip : List Char) (outcome : NetOutcome)
    (servicing : List (List Char)) : Option (List (List Char)) :=
  match outcome with
  | .handshakeOk => some (servicing ++ [ip])
  | .certificateError => some servicing
  | .socketTimeout => some servicing
  | .connectionRefused => none

/-- What `FindMeIP.show_results` prints. -/
inductive ReportOutput where
  | results (orderedCount : Nat) (pairs : List (List Char × ℚ))
      (concatCount : Nat) (concatenated : List Char)
  | noAvailableServers
deriving DecidableEq

/-- `FindMeIP.show_results`: when `self.reachable` is non-empty, print the
pairs of `self.ip_with_time` whose address is in `self.reachable` (in
`ip_with_time` order) with their count, then the count of `self.reachable`
and `'|'.join(self.reachable)`; otherwise print the no-servers message. -/
def show_results (ip_time : List (List Char × ℚ)) (reachable : List (List Char)) :
    ReportOutput :=
  if reachable.isEmpty then .noAvailableServers
  else
    .results (ip_time.filter (fun p => decide (p.1 ∈ reachable))).length
      (ip_time.filter (fun p => decide (p.1 ∈ reachable)))
      reachable.length (List.intercalate (("|").data) reachable)

/-! Helper lemmas. -/

theorem startswith_single (a c : Char) (cs : List Char) :
    startswith [a] (c :: cs) = (a == c) := by
  simp [startswith]

theorem pySplit_nil (sep : List Char) : pySplit sep [] = [[]] := by
  simp [pySplit]

theorem pySplit_cons (sep : List Char) (c : Char) (cs : List Char) :
    pySplit sep (c :: cs) =
      if sep ≠ [] ∧ startswith sep (c :: cs) = true then
        [] :: pySplit sep ((c :: cs).drop sep.length)
      else
        match pySplit sep cs with
        | [] => [[c]]
        | l :: ls => (c :: l) :: ls := by
  rw [pySplit]

/-- The general splitter agrees with the structural reference splitter on the
separator `'\n'`. -/
theorem pySplit_nlSep (s : List Char) : pySplit nlSep s = splitNl s := by
  induction s with
  | nil => simp [pySplit, splitNl]
  | cons c cs ih =>
    rw [pySplit_cons, splitNl]
    by_cases hc : c = '\n'
    · subst hc
      rw [if_pos ⟨by simp [nlSep], by simp [nlSep, startswith]⟩]
      have hd : ((('\n') :: cs).drop nlSep.length) = cs := by simp [nlSep]
      rw [hd, ih]
      simp
    · rw [if_neg]
      · simp only [ih]
        have : (c == '\n') = false := by simp [hc]
        simp [this]
      · simp [nlSep, startswith_single]
        intro h
        exact absurd h.symm hc

theorem splitNl_ne_nil (s : List Char) : splitNl s ≠ [] := by
  cases s with
  | nil => simp [splitNl]
  | cons c cs =>
    rw [splitNl]
    split
    · simp
    · split <;> simp

/-- Splitting on `'\n'` yields one more chunk than the number of newline
characters. -/
theorem length_splitNl (s : List Char) : (splitNl s).length = s.count '\n' + 1 := by
  induction s with
  | nil => simp [splitNl]
  | cons c cs ih =>
    rw [splitNl]
    by_cases hc : c = '\n'
    · subst hc
      simp [List.count_cons, ih]
    · have hb : (c == '\n') = false := by simp [hc]
      rw [hb]
      simp only [Bool.false_eq_true, if_false]
      rcases h : splitNl cs with _ | ⟨l, ls⟩
      · exact absurd h (splitNl_ne_nil cs)
      · have := ih
        rw [h] at this
        simp at this ⊢
        rw [List.count_cons]
        simp [hc, ← this]

/-! Claim theorems. -/

/-- C1 (code evaluated at the failing input): with 2 tasks and limit 1, when
the observed active-thread count is 1 at task 0's turn and 2 at task 1's turn,
`run_threads` starts only task 0 — task 1 is skipped by the throttle and never
launched — and the join loop then raises `RuntimeError` on the never-started
thread instead of completing every task. -/
theorem claim_C1_eval :
    run_threads_started (fun i => i + 1) 1 2 = [0] ∧
    run_threads_result (fun i => i + 1) 1 2 = none := by
  constructor <;> rfl

/-- C9: `parse_nslookup_result` raises `IndexError` (modelled as `none`)
exactly when the transcript contains fewer than two newline characters, i.e.
splits into fewer than three lines; on three or more lines it returns a
list. -/
theorem claim_C9 (s : List Char) :
    parse_nslookup_result s = none ↔ s.count '\n' < 2 := by
  unfold parse_nslookup_result
  rw [pySplit_nlSep]
  have hlen := length_splitNl s
  rcases h : splitNl s with _ | ⟨a, _ | ⟨b, _ | ⟨c, rest⟩⟩⟩
  · exact absurd h (splitNl_ne_nil s)
  · rw [h] at hlen
    simp at hlen
    simp
    omega
  · rw [h] at hlen
    simp at hlen
    simp
    omega
  · rw [h] at hlen
    simp at hlen
    simp
    omega

/-- C2 (code evaluated at the failing input): on a transcript whose first two
lines carry the resolver's identity, the parser returns the address of line 1
as well — `del lines[0]; del lines[1]` removes original lines 0 and 2, not
lines 0 and 1 — so the result is `['9.9.9.9', '1.2.3.4']` where the claim
requires `['1.2.3.4']`. -/
theorem claim_C2_eval :
    parse_nslookup_result ("Server: a\nAddress: 9.9.9.9\n\nAddress: 1.2.3.4").data =
      some [("9.9.9.9").data, ("1.2.3.4").data] := by
  unfold parse_nslookup_result
  rw [pySplit_nlSep]
  simp [splitNl, startswith, addressTag, replaceAll]

/-- C6 (code evaluated at the failing input): when the probe process exits 0
but its output does not match the expected summary layout, the parse failure
is *not* treated like a process failure: `Ping.run` catches only
`subprocess.CalledProcessError`, so the `IndexError` escapes the stage
(modelled as `none`, versus `some store` for a caught process failure). -/
theorem claim_C6_eval (pyfloat : List Char → Option ℚ)
    (store : List (List Char × PingRec)) :
    ping_run pyfloat (PingProcResult.ok ("ping: unknown output layout").data)
      ("1.2.3.4").data store = none := by
  simp [ping_run, parse_ping_result, pySplit_nlSep, splitNl, pyIdxNeg]

/-- C7 (counterexample): a network error other than certificate failure or
timeout — here a refused connection — is not caught by `ServiceCheck.run`'s
`except (ssl.CertificateError, socket.timeout)` clause and escapes the method
(modelled as `none`), where the claim requires the address simply not to be
added (`some []`). -/
theorem claim_C7_counterexample :
    serviceCheck_run ("1.2.3.4").data NetOutcome.connectionRefused [] = none := rfl

/-- C7 (amended): certificate-validation failure and timeout result only in
the single address not being added to the reachable set and are never
propagated; a successful handshake appends the address; any other network
error escapes the method uncaught. -/
theorem claim_C7_amended (ip : List Char) (servicing : List (List Char)) :
    serviceCheck_run ip NetOutcome.certificateError servicing = some servicing ∧
    serviceCheck_run ip NetOutcome.socketTimeout servicing = some servicing ∧
    serviceCheck_run ip NetOutcome.handshakeOk servicing = some (servicing ++ [ip]) ∧
    serviceCheck_run ip NetOutcome.connectionRefused servicing = none :=
  ⟨rfl, rfl, rfl, rfl⟩

theorem mem_pySetAdd (s : List (List Char)) (x y : List Char) :
    y ∈ pySetAdd s x ↔ y = x ∨ y ∈ s := by
  unfold pySetAdd
  split
  · rename_i hx
    constructor
    · exact fun h => Or.inr h
    · rintro (rfl | h)
      · exact hx
      · exact h
  · simp [List.mem_append]
    tauto

theorem mem_ns_store_after_run (name : List Char) :
    ∀ (ips : List (List Char)) (store : List (List Char)) (y : List Char),
      y ∈ ns_store_after_run name ips store ↔
        y ∈ store ∨ (y ∈ ips ∧ ns_excluded name y = false) := by
  intro ips
  induction ips with
  | nil =>
    intro store y
    simp [ns_store_after_run]
  | cons ip ips ih =>
    intro store y
    unfold ns_store_after_run at ih ⊢
    rw [List.foldl_cons]
    by_cases hex : ns_excluded name ip = true
    · rw [if_pos hex, ih]
      constructor
      · rintro (h | h)
        · exact Or.inl h
        · exact Or.inr ⟨List.mem_cons_of_mem _ h.1, h.2⟩
      · rintro (h | ⟨hmem, hfalse⟩)
        · exact Or.inl h
        · rcases List.mem_cons.mp hmem with rfl | h2
          · rw [hex] at hfalse
            cases hfalse
          · exact Or.inr ⟨h2, hfalse⟩
    · have hexf : ns_excluded name ip = false := by simpa using hex
      rw [if_neg hex, ih, mem_pySetAdd]
      by_cases hy : y = ip
      · subst hy
        simp [hexf]
      · simp [hy, List.mem_cons]

/-- C3: when the queried hostname contains `'google'`, the resolved-address
set produced by `NsLookup.run` from the parsed addresses contains exactly the
parsed addresses that do not start with `'74.'` or `'173.'` — excluded
prefixes are never admitted, every other parsed address is admitted. -/
theorem claim_C3 (name : List Char) (ips : List (List Char))
    (hname : containsSub googleSub name = true) (ip : List Char) :
    ip ∈ ns_store_after_run name ips [] ↔
      ip ∈ ips ∧ (startswith pre74 ip || startswith pre173 ip) = false := by
  rw [mem_ns_store_after_run]
  simp [ns_excluded, hname]

/-- C3 witness: resolving `google.com`, a response containing `74.1.2.3` and
`8.8.8.8` contributes only `8.8.8.8`. -/
theorem claim_C3_witness :
    ("8.8.8.8").data ∈
      ns_store_after_run ("google.com").data [("74.1.2.3").data, ("8.8.8.8").data] [] ∧
    ("74.1.2.3").data ∉
      ns_store_after_run ("google.com").data [("74.1.2.3").data, ("8.8.8.8").data] [] := by
  constructor
  · exact (claim_C3 _ _ (by decide) _).mpr (by decide)
  · intro h
    exact absurd ((claim_C3 _ _ (by decide) _).mp h).2 (by decide)

theorem rtt_le_trans (a b c : List Char × ℚ) :
    rtt_le a b → rtt_le b c → rtt_le a c := by
  intro hab hbc
  simp [rtt_le] at *
  exact le_trans hab hbc

theorem rtt_le_total (a b : List Char × ℚ) : rtt_le a b || rtt_le b a := by
  simp [rtt_le]
  exact le_total _ _

theorem keyval_unique :
    ∀ (l : List (List Char × PingRec)), (l.map Prod.fst).Nodup →
      ∀ (k : List Char) (v v' : PingRec), (k, v) ∈ l → (k, v') ∈ l → v = v' := by
  intro l
  induction l with
  | nil =>
    intro _ k v v' h1
    cases h1
  | cons p l ih =>
    rcases p with ⟨pk, pv⟩
    intro h k v v' h1 h2
    rw [List.map_cons, List.nodup_cons] at h
    rcases List.mem_cons.mp h1 with heq1 | h1' <;> rcases List.mem_cons.mp h2 with heq2 | h2'
    · injection heq1 with e1 e2
      injection heq2 with e3 e4
      exact e2.trans e4.symm
    · exfalso
      injection heq1 with e1 e2
      subst e1
      exact h.1 (List.mem_map.mpr ⟨(k, v'), h2', rfl⟩)
    · exfalso
      injection heq2 with e1 e2
      subst e1
      exact h.1 (List.mem_map.mpr ⟨(k, v), h1', rfl⟩)
    · exact ih h.2 k v v' h1' h2'

theorem mem_ip_with_time (ping_results : List (List Char × PingRec))
    (k : List Char) (t : ℚ) :
    (k, t) ∈ ip_with_time ping_results ↔
      ∃ v, (k, v) ∈ ping_results ∧ v.loss = 0 ∧ v.time = t := by
  unfold ip_with_time pre_sort_list
  rw [List.mem_mergeSort, List.mem_map]
  constructor
  · rintro ⟨kv, hkv, heq⟩
    rw [List.mem_filter] at hkv
    have h1 : kv.1 = k := congrArg Prod.fst heq
    have h2 : kv.2.time = t := congrArg Prod.snd heq
    refine ⟨kv.2, ?_, of_decide_eq_true hkv.2, h2⟩
    rw [← h1]
    exact hkv.1
  · rintro ⟨v, hm, hl, ht⟩
    exact ⟨(k, v), List.mem_filter.mpr ⟨hm, decide_eq_true hl⟩, by simp [ht]⟩

/-- C4: a pair `(address, roundTripMillis)` is in `ip_with_time` exactly when
its probe record has measured loss `0`; records with nonzero loss contribute
nothing to the list. -/
theorem claim_C4 (ping_results : List (List Char × PingRec))
    (hkeys : (ping_results.map Prod.fst).Nodup) :
    (∀ k t, (k, t) ∈ ip_with_time ping_results →
       ∃ v, (k, v) ∈ ping_results ∧ v.loss = 0 ∧ v.time = t) ∧
    (∀ k v, (k, v) ∈ ping_results → v.loss ≠ 0 →
       ∀ t, (k, t) ∉ ip_with_time ping_results) := by
  constructor
  · intro k t h
    exact (mem_ip_with_time ping_results k t).mp h
  · intro k v hm hv t hmem
    obtain ⟨v', hm', hl', _⟩ := (mem_ip_with_time ping_results k t).mp hmem
    exact hv (keyval_unique ping_results hkeys k v v' hm hm' ▸ hl')

/-- C4 witness: with records `1.1.1.1 ↦ (loss 0, 50 ms)` and
`2.2.2.2 ↦ (loss 1, 20 ms)`, the lossy address `2.2.2.2` is excluded from the
ranked list. -/
theorem claim_C4_witness :
    (("2.2.2.2").data, (20 : ℚ)) ∉
      ip_with_time [(("1.1.1.1").data, ⟨0, 50⟩), (("2.2.2.2").data, ⟨1, 20⟩)] :=
  (claim_C4 _ (by decide)).2 ("2.2.2.2").data ⟨1, 20⟩ (by decide) (by norm_num) 20

/-- C5: the ranked candidate list is sorted ascending by round-trip time, and
the sort is stable — for every time value `q`, the pairs with that time appear
in exactly the order they had in the pre-sort list (dict insertion order). -/
theorem claim_C5 (ping_results : List (List Char × PingRec)) :
    (ip_with_time ping_results).Pairwise (fun a b => a.2 ≤ b.2) ∧
    ∀ q : ℚ,
      (ip_with_time ping_results).filter (fun p => decide (p.2 = q)) =
        (pre_sort_list ping_results).filter (fun p => decide (p.2 = q)) := by
  constructor
  · have h := List.sorted_mergeSort rtt_le_trans rtt_le_total (pre_sort_list ping_results)
    exact h.imp (fun hab => of_decide_eq_true hab)
  · intro q
    set L := pre_sort_list ping_results with hL
    set pred := fun p : List Char × ℚ => decide (p.2 = q) with hpred
    have hperm : List.Perm ((L.mergeSort rtt_le).filter pred) (L.filter pred) :=
      (List.mergeSort_perm L rtt_le).filter pred
    have hc_pair : (L.filter pred).Pairwise (fun a b => rtt_le a b) := by
      apply List.pairwise_of_forall_mem_list
      intro a ha b hb
      have ha2 : a.2 = q := of_decide_eq_true (List.mem_filter.mp ha).2
      have hb2 : b.2 = q := of_decide_eq_true (List.mem_filter.mp hb).2
      simp [rtt_le, ha2, hb2]
    have hsub1 : List.Sublist (L.filter pred) L := List.filter_sublist L
    have hsub2 : List.Sublist (L.filter pred) (L.mergeSort rtt_le) :=
      List.sublist_mergeSort rtt_le_trans rtt_le_total hc_pair hsub1
    have heq_self : (L.filter pred).filter pred = L.filter pred := by
      rw [List.filter_eq_self]
      intro a ha
      exact (List.mem_filter.mp ha).2
    have hsub3 : List.Sublist (L.filter pred) ((L.mergeSort rtt_le).filter pred) := by
      have h := hsub2.filter pred
      rwa [heq_self] at h
    exact (hsub3.eq_of_length hperm.length_eq.symm).symm

/-- C8: for a reachable set drawn from the ranked list's addresses (the
pipeline guarantee: `ReachableSet` is a subset of `RankedCandidateList`'s
addresses), `show_results` renders the intersection in the ranked list's
ascending-latency order with its count, plus the reachable addresses joined
with `'|'` and their count; when the intersection is empty it renders the
no-servers message instead. -/
theorem claim_C8 (ip_time : List (List Char × ℚ)) (reachable : List (List Char))
    (hsub : ∀ x ∈ reachable, x ∈ ip_time.map Prod.fst)
    (hsort : ip_time.Pairwise (fun a b => a.2 ≤ b.2)) :
    ((ip_time.filter (fun p => decide (p.1 ∈ reachable))) = [] →
        show_results ip_time reachable = ReportOutput.noAvailableServers) ∧
    ((ip_time.filter (fun p => decide (p.1 ∈ reachable))) ≠ [] →
        show_results ip_time reachable =
          ReportOutput.results (ip_time.filter (fun p => decide (p.1 ∈ reachable))).length
            (ip_time.filter (fun p => decide (p.1 ∈ reachable)))
            reachable.length (List.intercalate (("|").data) reachable)) ∧
    (ip_time.filter (fun p => decide (p.1 ∈ reachable))).Pairwise (fun a b => a.2 ≤ b.2) ∧
    (∀ x, x ∈ (ip_time.filter (fun p => decide (p.1 ∈ reachable))).map Prod.fst ↔
        x ∈ reachable) := by
  have hiff : ∀ x,
      x ∈ (ip_time.filter (fun p => decide (p.1 ∈ reachable))).map Prod.fst ↔
        x ∈ reachable := by
    intro x
    rw [List.mem_map]
    constructor
    · rintro ⟨p, hp, rfl⟩
      exact of_decide_eq_true (List.mem_filter.mp hp).2
    · intro hx
      obtain ⟨p, hp, hfst⟩ := List.mem_map.mp (hsub x hx)
      exact ⟨p, List.mem_filter.mpr ⟨hp, decide_eq_true (hfst ▸ hx)⟩, hfst⟩
  have hempty : (ip_time.filter (fun p => decide (p.1 ∈ reachable))) = [] ↔
      reachable = [] := by
    constructor
    · intro h
      by_contra hne
      obtain ⟨x, hx⟩ := List.exists_mem_of_ne_nil reachable hne
      have hx2 := (hiff x).mpr hx
      rw [h] at hx2
      simp at hx2
    · intro h
      subst h
      simp
  refine ⟨?_, ?_, List.Pairwise.sublist (List.filter_sublist _) hsort, hiff⟩
  · intro h
    unfold show_results
    rw [hempty.mp h]
    simp
  · intro h
    have hr : reachable ≠ [] := fun hh => h (hempty.mpr hh)
    unfold show_results
    rw [if_neg (by simp [List.isEmpty_iff, hr])]

/-- C8 witness: ranked list `[(1.1.1.1, 20), (2.2.2.2, 50)]` with reachable
set `[2.2.2.2]` renders one pair, preserving the ranked order and the
concatenation. -/
theorem claim_C8_witness :
    show_results [(("1.1.1.1").data, (20 : ℚ)), (("2.2.2.2").data, (50 : ℚ))]
        [("2.2.2.2").data] =
      ReportOutput.results 1 [(("2.2.2.2").data, (50 : ℚ))] 1 (("2.2.2.2").data) := by
  have h := (claim_C8 [(("1.1.1.1").data, (20 : ℚ)), (("2.2.2.2").data, (50 : ℚ))]
      [("2.2.2.2").data] (by decide) (by decide)).2.1 (by decide)
  rw [h]
  decide

/-- C10: for any thread-completion order (any permutation of the launch-order
result of `check_service`), the reachable list is duplicate-free, a subset of
the ranked list's addresses, the intersected pair list rendered by the report
has exactly the length of the reachable list, and the two rendered lists
contain exactly the same addresses. -/
theorem claim_C10 (ping_results : List (List Char × PingRec))
    (hkeys : (ping_results.map Prod.fst).Nodup)
    (handshake_ok : List Char → Bool)
    (reachable : List (List Char))
    (hperm : List.Perm reachable
      (check_service (available_ips ping_results) handshake_ok)) :
    reachable.Nodup ∧
    (∀ x ∈ reachable, x ∈ available_ips ping_results) ∧
    ((ip_with_time ping_results).filter (fun p => decide (p.1 ∈ reachable))).length =
      reachable.length ∧
    (∀ x, x ∈ ((ip_with_time ping_results).filter
        (fun p => decide (p.1 ∈ reachable))).map Prod.fst ↔ x ∈ reachable) := by
  have havail : (available_ips ping_results).Nodup := by
    unfold available_ips ip_with_time
    have hp2 := (List.mergeSort_perm (pre_sort_list ping_results) rtt_le).map Prod.fst
    apply hp2.symm.nodup
    have hmm : (pre_sort_list ping_results).map Prod.fst =
        (ping_results.filter (fun kv => decide (kv.2.loss = 0))).map Prod.fst := by
      unfold pre_sort_list
      rw [List.map_map]
      rfl
    rw [hmm]
    exact List.Nodup.sublist ((List.filter_sublist _).map Prod.fst) hkeys
  have hcsnodup : (check_service (available_ips ping_results) handshake_ok).Nodup :=
    List.Nodup.sublist (List.filter_sublist _) havail
  have hnodup : reachable.Nodup := hperm.symm.nodup hcsnodup
  have hsubset : ∀ x ∈ reachable, x ∈ available_ips ping_results := by
    intro x hx
    exact (List.mem_filter.mp (hperm.mem_iff.mp hx)).1
  have hiff : ∀ x, x ∈ ((ip_with_time ping_results).filter
      (fun p => decide (p.1 ∈ reachable))).map Prod.fst ↔ x ∈ reachable := by
    intro x
    rw [List.mem_map]
    constructor
    · rintro ⟨p, hp, rfl⟩
      exact of_decide_eq_true (List.mem_filter.mp hp).2
    · intro hx
      obtain ⟨p, hp, hfst⟩ := List.mem_map.mp (hsubset x hx)
      exact ⟨p, List.mem_filter.mpr ⟨hp, decide_eq_true (hfst ▸ hx)⟩, hfst⟩
  have hlen : ((ip_with_time ping_results).filter
      (fun p => decide (p.1 ∈ reachable))).length = reachable.length := by
    have hpnodup : (((ip_with_time ping_results).filter
        (fun p => decide (p.1 ∈ reachable))).map Prod.fst).Nodup :=
      List.Nodup.sublist ((List.filter_sublist _).map Prod.fst) havail
    have hpermp := (List.perm_ext_iff_of_nodup hpnodup hnodup).mpr hiff
    have hl := hpermp.length_eq
    rwa [List.length_map] at hl
  exact ⟨hnodup, hsubset, hlen, hiff⟩

/-- C10 witness: two zero-loss records, a handshake predicate accepting only
`1.1.1.1`; the reachable list (in launch order) is duplicate-free and a subset
of the available addresses. -/
theorem claim_C10_witness :
    (check_service
        (available_ips [(("1.1.1.1").data, (⟨0, 50⟩ : PingRec)),
          (("2.2.2.2").data, (⟨0, 20⟩ : PingRec))])
        (fun x => x == ("1.1.1.1").data)).Nodup ∧
    ∀ x ∈ check_service
        (available_ips [(("1.1.1.1").data, (⟨0, 50⟩ : PingRec)),
          (("2.2.2.2").data, (⟨0, 20⟩ : PingRec))])
        (fun x => x == ("1.1.1.1").data),
      x ∈ available_ips [(("1.1.1.1").data, (⟨0, 50⟩ : PingRec)),
          (("2.2.2.2").data, (⟨0, 20⟩ : PingRec))] := by
  have h := claim_C10 [(("1.1.1.1").data, (⟨0, 50⟩ : PingRec)),
      (("2.2.2.2").data, (⟨0, 20⟩ : PingRec))] (by decide)
      (fun x => x == ("1.1.1.1").data) _ (List.Perm.refl _)
  exact ⟨h.1, h.2.1⟩
